import Mathlib

/-!
Verification of the CBC CleanUp Tool enrichment pipeline.

Shallow embedding of the Python sources:
  * `python_app/models/data_sorter.py`        (DataSorter)
  * `python_app/models/matching_engine.py`    (MatchingEngine)
  * `python_app/controllers/processing_controller.py` (ProcessingController)

Modelling conventions:
  * A pandas cell is `Option String` (`none` is NaN/None; numeric cells are
    modelled by their string rendering, which is what every relevant code
    path immediately converts them to).
  * A DataFrame is a list of column labels plus rows aligned with them.
  * Python string primitives (`strip`, `lower`, `upper`, `split`, `in`,
    comparison) are modelled by executable char-list functions.
  * Python floats are modelled as exact rationals; `float(...)` /
    `pd.to_numeric(..., errors="coerce")` are modelled by a decimal-literal
    parser (optional sign, digits, fraction, exponent).  The literals
    "inf" / "nan" and digit-group underscores are outside the model.
  * `fuzzywuzzy.fuzz.ratio` and `fuzz.partial_ratio` are third-party
    library calls; they enter the model as opaque score-function fields of
    the engine, exactly where the source calls them.
  * Python's `sorted` (stable) is modelled by `List.insertionSort` with a
    total preorder on sort keys, which computes the same stable ordering.
-/

namespace CleanupTool

/-! ## Python string primitives -/

/-- Substring test on char lists: `needle` occurs inside the haystack. -/
def listContains (needle : List Char) : List Char → Bool
  | [] => needle.isEmpty
  | c :: cs => needle.isPrefixOf (c :: cs) || listContains needle cs

/-- Python's `needle in hay` on strings. -/
def strContains (hay needle : String) : Bool :=
  listContains needle.data hay.data

/-- Leading and trailing whitespace removal on a char list. -/
def stripChars (l : List Char) : List Char :=
  ((l.dropWhile Char.isWhitespace).reverse.dropWhile Char.isWhitespace).reverse

/-- Python `str.strip()` (ASCII whitespace). -/
def pyStrip (s : String) : String :=
  ⟨stripChars s.data⟩

/-- Python `str.lower()` (ASCII case folding). -/
def pyLower (s : String) : String :=
  ⟨s.data.map Char.toLower⟩

/-- Python `str.upper()` (ASCII case folding). -/
def pyUpper (s : String) : String :=
  ⟨s.data.map Char.toUpper⟩

/-- Split a char list at every occurrence of a separator (Python
`str.split(sep)`: no separator yields the one-piece list, empty pieces are
kept). -/
def splitChar (sep : Char) : List Char → List (List Char)
  | [] => [[]]
  | c :: cs =>
    if c = sep then [] :: splitChar sep cs
    else
      match splitChar sep cs with
      | [] => [[c]]
      | p :: ps => (c :: p) :: ps

/-- Split a char list at every whitespace character (empty pieces kept;
callers drop them, matching Python's bare `str.split()`). -/
def splitWs : List Char → List (List Char)
  | [] => [[]]
  | c :: cs =>
    if c.isWhitespace then [] :: splitWs cs
    else
      match splitWs cs with
      | [] => [[c]]
      | p :: ps => (c :: p) :: ps

/-- String concatenation through the char-list representation. -/
def strCat (a b : String) : String :=
  ⟨a.data ++ b.data⟩

/-- Python `sep.join(parts)`. -/
def joinWith (sep : String) : List String → String
  | [] => ""
  | [x] => x
  | x :: xs => strCat x (strCat sep (joinWith sep xs))

/-- Python string `<=`: code-point lexicographic comparison. -/
def listLeChar : List Char → List Char → Bool
  | [], _ => true
  | _ :: _, [] => false
  | a :: as, b :: bs =>
    if a.toNat < b.toNat then true
    else if b.toNat < a.toNat then false
    else listLeChar as bs

/-! ## Python numeric primitives -/

/-- Numeric value of a digit list (most significant first). -/
def digitsVal (ds : List Char) : ℕ :=
  ds.foldl (fun n c => n * 10 + (c.toNat - 48)) 0

/-- Parse an unsigned decimal literal prefix: digits, optionally followed
by a point and more digits.  Returns mantissa and fractional scale (the
value is `mantissa / 10 ^ scale`) plus the unconsumed rest. -/
def parseUnsignedDec (cs : List Char) : Option ((ℕ × ℕ) × List Char) :=
  let ip := cs.takeWhile Char.isDigit
  let rest := cs.dropWhile Char.isDigit
  match rest with
  | '.' :: rest2 =>
    let fp := rest2.takeWhile Char.isDigit
    let rest3 := rest2.dropWhile Char.isDigit
    if ip.isEmpty && fp.isEmpty then none
    else some ((digitsVal ip * 10 ^ fp.length + digitsVal fp, fp.length), rest3)
  | _ => if ip.isEmpty then none else some ((digitsVal ip, 0), rest)

/-- Finish a float literal: either nothing remains, or an exponent suffix
adjusts the scale.  `m` and `s` are mantissa and fractional scale. -/
def parseExpSuffix (m s : ℕ) (cs : List Char) : Option ℚ :=
  match cs with
  | [] => some (mkRat m (10 ^ s))
  | c :: rest =>
    if c = 'e' ∨ c = 'E' then
      match rest with
      | '+' :: ds =>
        if ds.isEmpty || !ds.all Char.isDigit then none
        else some (mkRat (m * 10 ^ digitsVal ds) (10 ^ s))
      | '-' :: ds =>
        if ds.isEmpty || !ds.all Char.isDigit then none
        else some (mkRat m (10 ^ (s + digitsVal ds)))
      | ds =>
        if ds.isEmpty || !ds.all Char.isDigit then none
        else some (mkRat (m * 10 ^ digitsVal ds) (10 ^ s))
    else none

/-- Model of Python `float(s)` / `pd.to_numeric(s, errors="coerce")` on a
string: `none` models a parse failure (NaN after coercion). -/
def pyFloat? (s : String) : Option ℚ :=
  let cs := stripChars s.data
  let signed : Bool × List Char :=
    match cs with
    | '+' :: t => (false, t)
    | '-' :: t => (true, t)
    | t => (false, t)
  match parseUnsignedDec signed.2 with
  | none => none
  | some (ms, rest) =>
    (parseExpSuffix ms.1 ms.2 rest).map (fun v => if signed.1 then -v else v)

/-- Python `int(x)` on a float value: truncation toward zero. -/
def pyInt (q : ℚ) : ℤ :=
  Int.tdiv q.num (q.den : ℤ)

/-! ## DataFrame model -/

/-- One row: cells aligned with the column-label list. -/
abbrev Row := List (Option String)

/-- A pandas DataFrame: column labels plus rows. -/
structure Df where
  cols : List String
  rows : List Row
deriving DecidableEq, Repr

/-- Cell of a row at a column position (`none` for NaN or a short row). -/
def cellAt (r : Row) (i : ℕ) : Option String :=
  (r[i]?).bind id

/-! ## DataSorter (`python_app/models/data_sorter.py`) -/

/-- Embeds `DataSorter._is_date_format`: the regex `^\d{1,2}/\d{1,2}/\d{4}$`
followed by the component range checks 1-12 / 1-31 / 1900-2100. -/
def isDateFormat (v : String) : Bool :=
  if v = "" then false
  else
    match splitChar '/' (stripChars v.data) with
    | [m, d, y] =>
      (m.all Char.isDigit && 1 ≤ m.length && m.length ≤ 2) &&
      (d.all Char.isDigit && 1 ≤ d.length && d.length ≤ 2) &&
      (y.all Char.isDigit && y.length = 4) &&
      (1 ≤ digitsVal m && digitsVal m ≤ 12) &&
      (1 ≤ digitsVal d && digitsVal d ≤ 31) &&
      (1900 ≤ digitsVal y && digitsVal y ≤ 2100)
    | _ => false

/-- Embeds `DataSorter._is_numeric`: `float(value)` succeeds. -/
def isNumericStr (v : String) : Bool :=
  (pyFloat? v).isSome

/-- One step of the counting loop of `_detect_sort_type`:
accumulates (date count, numeric count), skipping blank cells. -/
def detectCountStep (acc : ℕ × ℕ) (c : Option String) : ℕ × ℕ :=
  match c with
  | none => acc
  | some v =>
    if v = "" then acc
    else
      let t := pyStrip v
      if t = "" then acc
      else if isDateFormat t then (acc.1 + 1, acc.2)
      else if isNumericStr t then (acc.1, acc.2 + 1)
      else acc

/-- Embeds `DataSorter._detect_sort_type`.  Note that the source divides by
`len(series)` (all values, blanks included), not by the non-blank count. -/
def detectSortType (s : List (Option String)) : String :=
  if s.isEmpty then "string"
  else
    let total := s.length
    let counts := s.foldl detectCountStep (0, 0)
    if mkRat counts.1 total > mkRat 1 2 then "date"
    else if mkRat counts.2 total > mkRat 7 10 then "numeric"
    else "string"

/-- A Python float as it occurs in sort keys: finite, or `float("inf")` /
`float("-inf")`. -/
inductive ExtQ where
  | ninf : ExtQ
  | fin : ℚ → ExtQ
  | pinf : ExtQ
deriving DecidableEq, Repr

/-- Order on `ExtQ` (the float order restricted to the values we build). -/
def ExtQ.leB : ExtQ → ExtQ → Bool
  | .ninf, _ => true
  | _, .pinf => true
  | .fin a, .fin b => a ≤ b
  | .pinf, _ => false
  | .fin _, .ninf => false

/-- The `(1, inf)` / `(0, -inf)` key given to blank (and unparseable)
entries by `date_key` / `numeric_key`, depending on direction. -/
def blankNumKey (asc : Bool) : ℕ × ExtQ :=
  if asc then (1, .pinf) else (0, .ninf)

/-- YYYYMMDD integer of a string already known to match the date format. -/
def dateValue (t : String) : ℕ :=
  match splitChar '/' t.data with
  | [m, d, y] => digitsVal y * 10000 + digitsVal m * 100 + digitsVal d
  | _ => 0

/-- Embeds the `date_key` of `_sort_list_by_date` / `_sort_by_date`. -/
def dateKey (asc : Bool) (x : Option String) : ℕ × ExtQ :=
  match x with
  | none => blankNumKey asc
  | some v =>
    if v = "" then blankNumKey asc
    else
      let t := pyStrip v
      if t = "" then blankNumKey asc
      else if isDateFormat t then (0, .fin (dateValue t : ℚ))
      else blankNumKey asc

/-- Embeds the `numeric_key` of `_sort_list_by_numeric` / `_sort_by_numeric`. -/
def numericKey (asc : Bool) (x : Option String) : ℕ × ExtQ :=
  match x with
  | none => blankNumKey asc
  | some v =>
    if v = "" then blankNumKey asc
    else
      let t := pyStrip v
      if t = "" then blankNumKey asc
      else
        match pyFloat? t with
        | some q => (0, .fin q)
        | none => blankNumKey asc

/-- The `(1, "zzz")` / `(0, "")` blank key of `string_key`. -/
def blankStrKey (asc : Bool) : ℕ × String :=
  if asc then (1, "zzz") else (0, "")

/-- Embeds the `string_key` of `_sort_list_by_string` / `_sort_by_string`. -/
def stringKey (asc : Bool) (x : Option String) : ℕ × String :=
  match x with
  | none => blankStrKey asc
  | some v =>
    if v = "" then blankStrKey asc
    else
      let t := pyStrip v
      if t = "" then blankStrKey asc
      else (0, pyLower t)

/-- Lexicographic order on numeric sort keys (Python tuple comparison). -/
def numKeyLe (a b : ℕ × ExtQ) : Bool :=
  a.1 < b.1 || (a.1 = b.1 && a.2.leB b.2)

/-- Lexicographic order on string sort keys (Python tuple comparison). -/
def strKeyLe (a b : ℕ × String) : Bool :=
  a.1 < b.1 || (a.1 = b.1 && listLeChar a.2.data b.2.data)

/-- The ordering `sorted(data, key=k, reverse=not ascending)` realizes:
ascending compares keys with `≤`, descending with `≥`; both directions are
stable, which `List.insertionSort` reproduces. -/
def pySortByKey {κ : Type} (key : Option String → κ) (le : κ → κ → Bool)
    (asc : Bool) (data : List (Option String)) : List (Option String) :=
  List.insertionSort
    (fun a b => (if asc then le (key a) (key b) else le (key b) (key a)) = true) data

/-- Embeds `DataSorter._sort_list_by_date`. -/
def sortListByDate (data : List (Option String)) (asc : Bool) : List (Option String) :=
  pySortByKey (dateKey asc) numKeyLe asc data

/-- Embeds `DataSorter._sort_list_by_numeric`. -/
def sortListByNumeric (data : List (Option String)) (asc : Bool) : List (Option String) :=
  pySortByKey (numericKey asc) numKeyLe asc data

/-- Embeds `DataSorter._sort_list_by_string`. -/
def sortListByString (data : List (Option String)) (asc : Bool) : List (Option String) :=
  pySortByKey (stringKey asc) strKeyLe asc data

/-- Embeds `DataSorter.sort_list`. -/
def sortList (data : List (Option String)) (asc : Bool) : List (Option String) :=
  if data.isEmpty then data
  else
    let st := detectSortType data
    if st = "date" then sortListByDate data asc
    else if st = "numeric" then sortListByNumeric data asc
    else sortListByString data asc

/-- Generic row sort of the DataFrame variants (`_sort_by_date` etc.): sort
the rows by the key of the chosen column's cell.  The source calls
`DataFrame.sort_values` whose default `kind="quicksort"` leaves the order of
tied rows unspecified; a stable order is one admissible refinement, and no
theorem below depends on the tie order of this branch. -/
def sortRowsByKey {κ : Type} (key : Option String → κ) (le : κ → κ → Bool)
    (asc : Bool) (i : ℕ) (rows : List Row) : List Row :=
  List.insertionSort
    (fun a b =>
      (if asc then le (key (cellAt a i)) (key (cellAt b i))
       else le (key (cellAt b i)) (key (cellAt a i))) = true) rows

/-- Embeds `DataSorter.sort_dataframe`: an unknown column label returns the
frame unchanged, otherwise rows are sorted by the detected type of that
column. -/
def sortDataframe (df : Df) (column : String) (asc : Bool) : Df :=
  match df.cols.findIdx? (· = column) with
  | none => df
  | some i =>
    let colVals := df.rows.map (fun r => cellAt r i)
    let st := detectSortType colVals
    if st = "date" then { df with rows := sortRowsByKey (dateKey asc) numKeyLe asc i df.rows }
    else if st = "numeric" then { df with rows := sortRowsByKey (numericKey asc) numKeyLe asc i df.rows }
    else { df with rows := sortRowsByKey (stringKey asc) strKeyLe asc i df.rows }

/-! ## MatchingEngine (`python_app/models/matching_engine.py`) -/

/-- The matching engine's state plus the two external `fuzzywuzzy`
similarity primitives it calls (`fuzz.ratio`, `fuzz.partial_ratio`),
modelled as opaque score functions. -/
structure Engine where
  ratio : String → String → ℚ
  ratioPartial : String → String → ℚ
  useFuzzyLogic : Bool
  threshold : ℚ

/-- The invalid-PERNR indicator list of `MatchingEngine.is_valid_pernr`. -/
def invalidIndicators : List String :=
  ["cant find", "can\x27t find", "cannot find", "not found", "unknown",
   "n/a", "na", "null", "none", "empty", "missing", "error",
   "invalid", "invalid pernr", "no match", "no data"]

/-- Embeds `MatchingEngine.is_valid_pernr` on a cell. -/
def isValidPernr (c : Option String) : Bool :=
  match c with
  | none => false
  | some s =>
    let t := pyStrip s
    if t = "" then false
    else !(invalidIndicators.contains (pyLower t))

/-- Name-column resolution of `find_employee_by_name`: exact `"Full Name"`
first, else the first column whose lowered label contains `"name"`. -/
def resolveNameCol (cols : List String) : Option ℕ :=
  match cols.findIdx? (· = "Full Name") with
  | some i => some i
  | none => cols.findIdx? (fun c => strContains (pyLower c) "name")

/-- PERNR-column resolution of `find_employee_by_name`: upper-cased label
`"PERNR"` first, then exact `"Pers. Number"`, then a label containing both
`"employee"` and `"number"`. -/
def resolvePernrCol (cols : List String) : Option ℕ :=
  match cols.findIdx? (fun c => pyUpper c = "PERNR") with
  | some i => some i
  | none =>
    match cols.findIdx? (· = "Pers. Number") with
    | some i => some i
    | none =>
      cols.findIdx? (fun c =>
        strContains (pyLower c) "employee" && strContains (pyLower c) "number")

/-- Models `str(...).split()` followed by the per-part strip-and-keep-
non-empty comprehension of `_calculate_name_order_score`. -/
def splitParts (s : String) : List String :=
  (((splitWs s.data).map (fun cs => pyStrip ⟨cs⟩))).filter (fun p => p ≠ "")

/-- Embeds `MatchingEngine._calculate_name_order_score` (all three
methods), parameterized by the `fuzz.ratio` primitive it calls. -/
def calculateNameOrderScore (ratio : String → String → ℚ) (name1 name2 : String) : ℚ :=
  let p1 := splitParts name1
  let p2 := splitParts name2
  if p1.length < 2 ∨ p2.length < 2 then 0
  else
    let n1rev := strCat (p1.getLastD "") (strCat ", " (p1.headD ""))
    let n2rev := strCat (p2.getLastD "") (strCat ", " (p2.headD ""))
    let best1 := max (0 : ℚ) (max (ratio name1 n2rev) (ratio n1rev name2))
    let best2 :=
      if p1.length ≥ 3 ∨ p2.length ≥ 3 then
        (List.range' 1 (min p1.length p2.length - 1)).foldl (fun b i =>
          let f1 := joinWith " " (p1.take i)
          let l1 := joinWith " " (p1.drop i)
          let f2 := joinWith " " (p2.take i)
          let l2 := joinWith " " (p2.drop i)
          let b1 := max b (ratio (strCat f1 (strCat " " l1)) (strCat l2 (strCat ", " f2)))
          max b1 (ratio (strCat l1 (strCat ", " f1)) (strCat f2 (strCat " " l2)))) best1
      else best1
    p1.foldl (fun b q1 =>
      p2.foldl (fun b2 q2 =>
        if q1.length ≥ 3 ∧ q2.length ≥ 3 then
          if ratio q1 q2 ≥ 80 then
            let matching := p1.countP (fun u1 => p2.any (fun u2 => ratio u1 u2 ≥ 80))
            let total := max p1.length p2.length
            if matching ≥ 2 then max b2 (mkRat (matching * 100) total) else b2
          else b2
        else b2) b) best2

/-- Per-row similarity of the fuzzy loop: the maximum of `fuzz.ratio`,
`fuzz.partial_ratio` and the name-order score on the cleaned names. -/
def finalScore (eng : Engine) (qclean sclean : String) : ℚ :=
  max (eng.ratio qclean sclean)
    (max (eng.ratioPartial qclean sclean) (calculateNameOrderScore eng.ratio qclean sclean))

/-- Models `str(int(pd.to_numeric(cell, errors="coerce")))` with NaN
propagating to `none`: the PERNR coercion done by both branches of
`find_employee_by_name`. -/
def coercePernr (r : Row) (pi : ℕ) : Option String :=
  ((cellAt r pi).bind pyFloat?).map (fun q => toString (pyInt q))

/-- Result quadruple of `find_employee_by_name`. -/
structure FindResult where
  employeeNumber : Option String
  fullName : Option String
  matchType : String
  matchScore : ℚ
deriving DecidableEq, Repr

/-- The `(None, None, "no_match", 0.0)` result. -/
def noMatchResult : FindResult :=
  ⟨none, none, "no_match", 0⟩

/-- PRIORITY 1 of `find_employee_by_name`: scan rows in order and return on
the first case-insensitive trimmed name equality. -/
def exactScan (q : String) (ni pi : ℕ) : List Row → Option FindResult
  | [] => none
  | r :: rs =>
    match cellAt r ni with
    | none => exactScan q ni pi rs
    | some s =>
      if pyLower (pyStrip s) = q then some ⟨coercePernr r pi, some s, "exact_match", 100⟩
      else exactScan q ni pi rs

/-- Loop state of the fuzzy phase: best score / employee number / name. -/
structure FuzzyAcc where
  bestScore : ℚ
  bestEmp : Option String
  bestName : Option String
deriving Repr

/-- One iteration of the PRIORITY 2 loop: skip NaN names; update the best
candidate only on a strictly greater score that also meets the threshold. -/
def fuzzyStep (eng : Engine) (q : String) (ni pi : ℕ) (a : FuzzyAcc) (r : Row) : FuzzyAcc :=
  match cellAt r ni with
  | none => a
  | some s =>
    let mName := pyStrip s
    let sc := finalScore eng q (pyLower mName)
    if sc > a.bestScore ∧ sc ≥ eng.threshold then ⟨sc, coercePernr r pi, some mName⟩
    else a

/-- PRIORITY 2 of `find_employee_by_name`: the fuzzy fallback loop plus the
final best-candidate check. -/
def fuzzyPhase (eng : Engine) (q : String) (ni pi : ℕ) (rows : List Row) : FindResult :=
  let a := rows.foldl (fuzzyStep eng q ni pi) ⟨0, none, none⟩
  match a.bestEmp with
  | some e => ⟨some e, a.bestName, "fuzzy_match", a.bestScore⟩
  | none => noMatchResult

/-- Embeds `MatchingEngine.find_employee_by_name`. -/
def findEmployeeByName (eng : Engine) (currentName : String) (ml : Df) : FindResult :=
  if ml.rows.isEmpty then noMatchResult
  else
    match resolveNameCol ml.cols, resolvePernrCol ml.cols with
    | some ni, some pi =>
      let q := pyLower (pyStrip currentName)
      match exactScan q ni pi ml.rows with
      | some res => res
      | none =>
        if eng.useFuzzyLogic then fuzzyPhase eng q ni pi ml.rows else noMatchResult
    | _, _ => noMatchResult

/-! ## ProcessingController (`python_app/controllers/processing_controller.py`)

Steps 3-5 of `cleanup_worker` (full-name backfill, resignation date,
organizational data) write only columns that no claim below mentions and
never touch the PERNR / match-type / match-score fields; they are outside
the embedded record. -/

/-- The per-row enrichment fields that the claims are about. -/
structure RowResult where
  employeeNumber : Option String
  matchType : String
  matchScore : ℚ
deriving DecidableEq, Repr

/-- An enriched row: the original row plus its enrichment fields. -/
abbrev EnrichedRow := Row × RowResult

/-- The `EmployeeDataset` fields driving and receiving a run. -/
structure Dataset where
  currentSystem : Df
  previousReference : Option Df
  masterlistCurrent : Option Df
  masterlistResigned : Option Df
  cleanedData : Option (List EnrichedRow)
  unmatchedData : Option (List EnrichedRow)
  fuzzyMatchedData : Option (List EnrichedRow)
deriving DecidableEq, Repr

/-- User-ID column detection of `detect_lookup_columns`: exact `"User ID"`
first, else first label containing one of the lookup keywords. -/
def detectUserIdCol (cols : List String) : Option ℕ :=
  match cols.findIdx? (· = "User ID") with
  | some i => some i
  | none =>
    cols.findIdx? (fun c =>
      ["user", "id", "sysid", "username", "abbreviation"].any
        (fun k => strContains (pyLower c) k))

/-- Previous-reference PERNR column detection of `detect_lookup_columns`. -/
def detectPernrPrevCol (cols : List String) : Option ℕ :=
  match cols.findIdx? (· = "PERNR") with
  | some i => some i
  | none =>
    cols.findIdx? (fun c =>
      pyUpper c = "PERNR" ||
        (strContains (pyLower c) "employee" && strContains (pyLower c) "number"))

/-- Step 1 of `cleanup_worker`: the raw PERNR cell found through the
User-ID lookup in the previous-reference table, `none` unless the lookup
succeeds and `is_valid_pernr` accepts the cell. -/
def step1PernrCell (prev : Option Df) (curCols : List String) (row : Row) : Option String :=
  match prev with
  | none => none
  | some pdf =>
    if pdf.rows.isEmpty then none
    else
      match detectUserIdCol curCols, detectUserIdCol pdf.cols, detectPernrPrevCol pdf.cols with
      | some uc, some up, some pp =>
        match cellAt row uc with
        | none => none
        | some uid =>
          match pdf.rows.find? (fun r => cellAt r up = some uid) with
          | none => none
          | some mr => if isValidPernr (cellAt mr pp) then cellAt mr pp else none
      | _, _, _ => none

/-- Packs the PERNR / match-type / match-score triple of a find result. -/
def ofFindResult (fr : FindResult) : RowResult :=
  ⟨fr.employeeNumber, fr.matchType, fr.matchScore⟩

/-- Step 2 of the per-row loop of `cleanup_worker`: name matching against
the current masterlist, then against the resigned masterlist while the
employee number is still missing. -/
def step2Result (eng : Engine) (mlCur mlRes : Option Df) (curCols : List String)
    (row : Row) : RowResult :=
  match curCols.findIdx? (fun c =>
      strContains (pyLower c) "username" || strContains (pyLower c) "name") with
  | none => ⟨none, "no_match", 0⟩
  | some nc =>
    match cellAt row nc with
    | none => ⟨none, "no_match", 0⟩
    | some cn =>
      if cn = "" then ⟨none, "no_match", 0⟩
      else
        match mlCur with
        | some m =>
          let fr := findEmployeeByName eng cn m
          if fr.employeeNumber = none then
            match mlRes with
            | some mres => ofFindResult (findEmployeeByName eng cn mres)
            | none => ofFindResult fr
          else ofFindResult fr
        | none =>
          match mlRes with
          | some mres => ofFindResult (findEmployeeByName eng cn mres)
          | none => ⟨none, "no_match", 0⟩

/-- Steps 1-2 of the per-row loop of `cleanup_worker`: User-ID lookup
first, name matching as the fallback. -/
def processRow (eng : Engine) (prev mlCur mlRes : Option Df) (curCols : List String)
    (row : Row) : RowResult :=
  let step1Emp : Option String :=
    match step1PernrCell prev curCols row with
    | some pv => let t := pyStrip pv; if t = "" then none else some t
    | none => none
  match step1Emp with
  | some e => ⟨some e, "user_id_match", 100⟩
  | none => step2Result eng mlCur mlRes curCols row

/-- Embeds `clean_pernr` inside `finalize_processing`: canonicalize a
purely numeric value to its integer string, keep any other non-blank value
as the trimmed original. -/
def cleanPernr : Option String → Option String
  | none => none
  | some s =>
    let t := pyStrip s
    if t = "" then none
    else
      match pyFloat? t with
      | some q => some (toString (pyInt q))
      | none => some t

/-- Embeds `finalize_processing`: canonicalize PERNRs, then build the
cleaned table, the unmatched partition (no PERNR) and the fuzzy partition
(PERNR present and `match_type == "fuzzy_match"`). -/
def finalizeProcessing (ers : List EnrichedRow) :
    List EnrichedRow × List EnrichedRow × List EnrichedRow :=
  let cleaned := ers.map (fun er =>
    (er.1, RowResult.mk (cleanPernr er.2.employeeNumber) er.2.matchType er.2.matchScore))
  let unmatched := cleaned.filter (fun er => er.2.employeeNumber.isNone)
  let fuzzy := cleaned.filter (fun er =>
    er.2.employeeNumber.isSome && er.2.matchType == "fuzzy_match")
  (cleaned, unmatched, fuzzy)

/-- The per-row loop of `cleanup_worker` with the cooperative cancellation
check at each row boundary; `cancelAt i` is the value of the shared cancel
flag observed at the boundary before row `i`.  `none` models the early
`return` on cancellation (no enriched rows survive). -/
def enrichLoop (eng : Engine) (prev mlCur mlRes : Option Df) (curCols : List String)
    (cancelAt : ℕ → Bool) : ℕ → List Row → Option (List EnrichedRow)
  | _, [] => some []
  | i, r :: rs =>
    if cancelAt i then none
    else
      match enrichLoop eng prev mlCur mlRes curCols cancelAt (i + 1) rs with
      | none => none
      | some rest => some ((r, processRow eng prev mlCur mlRes curCols r) :: rest)

/-- Terminal outcome of a run as reported to the caller. -/
inductive RunOutcome where
  | completed : RunOutcome
  | cancelled : RunOutcome
deriving DecidableEq, Repr

/-- Embeds `cleanup_worker`: run the per-row loop; on cancellation stop
without touching the dataset, otherwise finalize and publish the three
tables. -/
def cleanupWorker (eng : Engine) (cancelAt : ℕ → Bool) (ds : Dataset) :
    RunOutcome × Dataset :=
  let cur := ds.currentSystem
  match enrichLoop eng ds.previousReference ds.masterlistCurrent ds.masterlistResigned
      cur.cols cancelAt 0 cur.rows with
  | none => (.cancelled, ds)
  | some ers =>
    let parts := finalizeProcessing ers
    (.completed,
      { ds with
        cleanedData := some parts.1
        unmatchedData := some parts.2.1
        fuzzyMatchedData := some parts.2.2 })

/-! ## Auxiliary predicates and spec-modelled reference definitions -/

/-- Blankness as every sort key and the detection loop treat it: NaN/None,
the empty string, or whitespace only. -/
def isBlankCell (c : Option String) : Bool :=
  match c with
  | none => true
  | some v => pyStrip v = ""

/-- A cell the detection loop counts as a date. -/
def countedDate (c : Option String) : Bool :=
  match c with
  | none => false
  | some v =>
    if v = "" then false
    else
      let t := pyStrip v
      if t = "" then false else isDateFormat t

/-- A cell the detection loop counts as numeric (dates take precedence). -/
def countedNumeric (c : Option String) : Bool :=
  match c with
  | none => false
  | some v =>
    if v = "" then false
    else
      let t := pyStrip v
      if t = "" then false else !isDateFormat t && isNumericStr t

/-- A cell that receives a content key from `numeric_key` (parses as a
float). -/
def countedFloat (c : Option String) : Bool :=
  match c with
  | none => false
  | some v =>
    if v = "" then false
    else
      let t := pyStrip v
      if t = "" then false else isNumericStr t

/-- Modelled from the spec: days per month with leap years, giving meaning
to the spec's "calendar-valid components". -/
def daysInMonth (m y : ℕ) : ℕ :=
  if m = 2 then (if (y % 4 = 0 ∧ y % 100 ≠ 0) ∨ y % 400 = 0 then 29 else 28)
  else if m = 4 ∨ m = 6 ∨ m = 9 ∨ m = 11 then 30
  else 31

/-- Modelled from the spec: "a strict MM/DD/YYYY pattern with
calendar-valid components". -/
def isCalendarDate (v : String) : Bool :=
  match splitChar '/' (stripChars v.data) with
  | [m, d, y] =>
    (m.all Char.isDigit && 1 ≤ m.length && m.length ≤ 2) &&
    (d.all Char.isDigit && 1 ≤ d.length && d.length ≤ 2) &&
    (y.all Char.isDigit && y.length = 4) &&
    (1 ≤ digitsVal m && digitsVal m ≤ 12) &&
    (1 ≤ digitsVal d && digitsVal d ≤ daysInMonth (digitsVal m) (digitsVal y))
  | _ => false

/-- Modelled from the spec: "inspect all non-blank values in the column: if
more than half match a strict MM/DD/YYYY pattern with calendar-valid
components, sort as dates; else if more than 70 percent parse as
floating-point numbers, sort numerically; otherwise sort as strings" —
fractions taken over the non-blank values only. -/
def specDetectSortType (s : List (Option String)) : String :=
  let nb := s.countP (fun c => !isBlankCell c)
  let dc := s.countP (fun c =>
    !isBlankCell c && (match c with | some v => isCalendarDate (pyStrip v) | none => false))
  let fc := s.countP (fun c =>
    !isBlankCell c && (match c with | some v => isNumericStr (pyStrip v) | none => false))
  if 2 * dc > nb then "date"
  else if 10 * fc > 7 * nb then "numeric"
  else "string"

/-! ## Claim C10 -/

/-- C10: for every table and direction, `sort_dataframe` called with a
column label that is not among the table's columns returns the table
unchanged (same rows in the same order) rather than raising. -/
theorem sortDataframe_unknown_column (df : Df) (column : String) (asc : Bool)
    (h : column ∉ df.cols) : sortDataframe df column asc = df := by
  unfold sortDataframe
  have hidx : df.cols.findIdx? (· = column) = none := by
    rw [List.findIdx?_eq_none_iff]
    intro x hx
    simp only [decide_eq_false_iff_not]
    intro hxc
    exact h (hxc ▸ hx)
  rw [hidx]

/-- Witness for C10 at a concrete frame and missing column. -/
theorem sortDataframe_unknown_column_witness :
    sortDataframe ⟨["Name", "PERNR"], [[some "b", some "2"], [some "a", some "1"]]⟩ "Missing" true
      = ⟨["Name", "PERNR"], [[some "b", some "2"], [some "a", some "1"]]⟩ :=
  sortDataframe_unknown_column _ _ _ (by decide)

/-! ## Claim C7 -/

/-- The counting loop of `_detect_sort_type` counts exactly the
`countedDate` / `countedNumeric` cells. -/
lemma foldl_detectCountStep (s : List (Option String)) (a b : ℕ) :
    s.foldl detectCountStep (a, b) =
      (a + s.countP countedDate, b + s.countP countedNumeric) := by
  induction s generalizing a b with
  | nil => simp
  | cons c s ih =>
    rw [List.foldl_cons]
    cases c with
    | none =>
      rw [show detectCountStep (a, b) none = (a, b) from rfl, ih]
      simp [countedDate, countedNumeric, List.countP_cons]
    | some v =>
      simp only [detectCountStep]
      split_ifs with h1 h2 h3 h4 <;>
        rw [ih] <;>
        simp [countedDate, countedNumeric, h1, List.countP_cons, Prod.ext_iff] <;>
        simp_all <;>
        omega

/-- Converts the source's rational fraction test to a counting test. -/
lemma mkRat_gt_iff (a n : ℕ) (p : ℤ) (q : ℕ) (hn : 0 < n) (hq : 0 < q) :
    mkRat (a : ℤ) n > mkRat p q ↔ p * n < (a : ℤ) * q := by
  rw [Rat.mkRat_eq_div, Rat.mkRat_eq_div, gt_iff_lt,
    div_lt_div_iff₀ (by exact_mod_cast hq) (by exact_mod_cast hn)]
  exact_mod_cast Iff.rfl

/-- C7 (amended): the Result Sorter's type detection computes its fractions
over ALL values of the column (blank and non-blank alike): dates win when
`2 * dateCount > length`, else numerics when `10 * numericCount > 7 * length`,
else strings; date counting uses the source's range check (day up to 31 in
every month), not full calendar validity. -/
theorem detectSortType_total_denominator (s : List (Option String)) (h : s ≠ []) :
    detectSortType s =
      (if 2 * s.countP countedDate > s.length then "date"
       else if 10 * s.countP countedNumeric > 7 * s.length then "numeric"
       else "string") := by
  have hn : 0 < s.length := List.length_pos.mpr h
  unfold detectSortType
  rw [if_neg (by simpa using h), foldl_detectCountStep]
  simp only [Nat.zero_add]
  have h1 : mkRat (s.countP countedDate) s.length > mkRat 1 2 ↔
      2 * s.countP countedDate > s.length := by
    rw [mkRat_gt_iff _ _ _ _ hn (by norm_num)]
    omega
  have h2 : mkRat (s.countP countedNumeric) s.length > mkRat 7 10 ↔
      10 * s.countP countedNumeric > 7 * s.length := by
    rw [mkRat_gt_iff _ _ _ _ hn (by norm_num)]
    omega
  by_cases hd : 2 * s.countP countedDate > s.length
  · rw [if_pos (h1.mpr hd), if_pos hd]
  · rw [if_neg (fun hc => hd (h1.mp hc)), if_neg hd]
    by_cases hm : 10 * s.countP countedNumeric > 7 * s.length
    · rw [if_pos (h2.mpr hm), if_pos hm]
    · rw [if_neg (fun hc => hm (h2.mp hc)), if_neg hm]

/-- Witness for C7 (amended) at a concrete column. -/
theorem detectSortType_total_denominator_witness :
    detectSortType [some "5", some "6", some "x"] =
      (if 2 * List.countP countedDate [some "5", some "6", some "x"] > 3 then "date"
       else if 10 * List.countP countedNumeric [some "5", some "6", some "x"] > 7 * 3 then "numeric"
       else "string") := by
  have := detectSortType_total_denominator [some "5", some "6", some "x"] (by decide)
  simpa using this

/-- C7 counterexample: the source divides by the total number of values,
so a column whose non-blank values are all dates can still sort as strings;
and the source's day check accepts 02/31, which is not calendar-valid. -/
theorem detectSortType_spec_mismatch :
    detectSortType [some "01/01/2024", some "", some ""] = "string" ∧
    specDetectSortType [some "01/01/2024", some "", some ""] = "date" ∧
    detectSortType [some "02/31/2024"] = "date" ∧
    specDetectSortType [some "02/31/2024"] = "string" :=
  ⟨by decide, by decide, by decide, by decide⟩

/-! ## Claim C8 -/

lemma extLeB_total (a b : ExtQ) : a.leB b = true ∨ b.leB a = true := by
  cases a <;> cases b <;> simp [ExtQ.leB] <;> exact le_total _ _

lemma extLeB_trans (a b c : ExtQ) (h1 : a.leB b = true) (h2 : b.leB c = true) :
    a.leB c = true := by
  cases a <;> cases b <;> cases c <;> simp_all [ExtQ.leB] <;> linarith

lemma numKeyLe_total (a b : ℕ × ExtQ) : numKeyLe a b = true ∨ numKeyLe b a = true := by
  simp only [numKeyLe, Bool.or_eq_true, Bool.and_eq_true, decide_eq_true_eq]
  rcases Nat.lt_trichotomy a.1 b.1 with h | h | h
  · exact Or.inl (Or.inl h)
  · rcases extLeB_total a.2 b.2 with h2 | h2
    · exact Or.inl (Or.inr ⟨h, h2⟩)
    · exact Or.inr (Or.inr ⟨h.symm, h2⟩)
  · exact Or.inr (Or.inl h)

lemma numKeyLe_trans (a b c : ℕ × ExtQ) (h1 : numKeyLe a b = true)
    (h2 : numKeyLe b c = true) : numKeyLe a c = true := by
  simp only [numKeyLe, Bool.or_eq_true, Bool.and_eq_true, decide_eq_true_eq] at h1 h2 ⊢
  rcases h1 with h1 | ⟨h1e, h1b⟩ <;> rcases h2 with h2 | ⟨h2e, h2b⟩
  · exact Or.inl (by omega)
  · exact Or.inl (by omega)
  · exact Or.inl (by omega)
  · exact Or.inr ⟨by omega, extLeB_trans _ _ _ h1b h2b⟩

lemma listLeChar_cons (a b : Char) (as bs : List Char) :
    listLeChar (a :: as) (b :: bs) = true ↔
      a.toNat < b.toNat ∨ (a.toNat = b.toNat ∧ listLeChar as bs = true) := by
  simp only [listLeChar]
  split_ifs with h1 h2
  · simp [h1]
  · simp only [Bool.false_eq_true, false_iff]
    rintro (h | ⟨h, _⟩) <;> omega
  · have he : a.toNat = b.toNat := by omega
    simp [he, h1]

lemma listLeChar_total : ∀ (a b : List Char), listLeChar a b = true ∨ listLeChar b a = true
  | [], _ => Or.inl rfl
  | _ :: _, [] => Or.inr rfl
  | a :: as, b :: bs => by
    rw [listLeChar_cons, listLeChar_cons]
    rcases Nat.lt_trichotomy a.toNat b.toNat with h | h | h
    · exact Or.inl (Or.inl h)
    · rcases listLeChar_total as bs with h2 | h2
      · exact Or.inl (Or.inr ⟨h, h2⟩)
      · exact Or.inr (Or.inr ⟨h.symm, h2⟩)
    · exact Or.inr (Or.inl h)

lemma listLeChar_trans : ∀ (a b c : List Char), listLeChar a b = true →
    listLeChar b c = true → listLeChar a c = true
  | [], _, _, _, _ => rfl
  | _ :: _, [], _, h1, _ => absurd h1 (by simp [listLeChar])
  | _ :: _, _ :: _, [], _, h2 => absurd h2 (by simp [listLeChar])
  | a :: as, b :: bs, c :: cs, h1, h2 => by
    rw [listLeChar_cons] at h1 h2 ⊢
    rcases h1 with h1 | ⟨h1e, h1r⟩ <;> rcases h2 with h2 | ⟨h2e, h2r⟩
    · exact Or.inl (by omega)
    · exact Or.inl (by omega)
    · exact Or.inl (by omega)
    · exact Or.inr ⟨by omega, listLeChar_trans as bs cs h1r h2r⟩

lemma strKeyLe_total (a b : ℕ × String) : strKeyLe a b = true ∨ strKeyLe b a = true := by
  simp only [strKeyLe, Bool.or_eq_true, Bool.and_eq_true, decide_eq_true_eq]
  rcases Nat.lt_trichotomy a.1 b.1 with h | h | h
  · exact Or.inl (Or.inl h)
  · rcases listLeChar_total a.2.data b.2.data with h2 | h2
    · exact Or.inl (Or.inr ⟨h, h2⟩)
    · exact Or.inr (Or.inr ⟨h.symm, h2⟩)
  · exact Or.inr (Or.inl h)

lemma strKeyLe_trans (a b c : ℕ × String) (h1 : strKeyLe a b = true)
    (h2 : strKeyLe b c = true) : strKeyLe a c = true := by
  simp only [strKeyLe, Bool.or_eq_true, Bool.and_eq_true, decide_eq_true_eq] at h1 h2 ⊢
  rcases h1 with h1 | ⟨h1e, h1b⟩ <;> rcases h2 with h2 | ⟨h2e, h2b⟩
  · exact Or.inl (by omega)
  · exact Or.inl (by omega)
  · exact Or.inl (by omega)
  · exact Or.inr ⟨by omega, listLeChar_trans _ _ _ h1b h2b⟩

/-- The modelled `sorted(...)` output is pairwise ordered by its key
relation, in both directions. -/
lemma pySortByKey_pairwise {κ : Type} (key : Option String → κ) (le : κ → κ → Bool)
    (htot : ∀ a b, le a b = true ∨ le b a = true)
    (htr : ∀ a b c, le a b = true → le b c = true → le a c = true)
    (asc : Bool) (data : List (Option String)) :
    (pySortByKey key le asc data).Pairwise
      (fun a b => (if asc then le (key a) (key b) else le (key b) (key a)) = true) := by
  unfold pySortByKey
  haveI : IsTotal (Option String)
      (fun a b => (if asc then le (key a) (key b) else le (key b) (key a)) = true) := by
    refine ⟨fun a b => ?_⟩
    cases asc
    · simpa using htot (key b) (key a)
    · simpa using htot (key a) (key b)
  haveI : IsTrans (Option String)
      (fun a b => (if asc then le (key a) (key b) else le (key b) (key a)) = true) := by
    refine ⟨fun a b c h1 h2 => ?_⟩
    cases asc
    · simp only [Bool.false_eq_true, if_false] at h1 h2 ⊢
      exact htr _ _ _ h2 h1
    · simp only [if_true] at h1 h2 ⊢
      exact htr _ _ _ h1 h2
  exact List.sorted_insertionSort _ data

lemma dateKey_of_blank (asc : Bool) (c : Option String) (h : isBlankCell c = true) :
    dateKey asc c = blankNumKey asc := by
  cases c with
  | none => rfl
  | some v =>
    simp only [isBlankCell, decide_eq_true_eq] at h
    by_cases hv : v = "" <;> simp [dateKey, hv, h]

lemma numericKey_of_blank (asc : Bool) (c : Option String) (h : isBlankCell c = true) :
    numericKey asc c = blankNumKey asc := by
  cases c with
  | none => rfl
  | some v =>
    simp only [isBlankCell, decide_eq_true_eq] at h
    by_cases hv : v = "" <;> simp [numericKey, hv, h]

lemma stringKey_of_blank (asc : Bool) (c : Option String) (h : isBlankCell c = true) :
    stringKey asc c = blankStrKey asc := by
  cases c with
  | none => rfl
  | some v =>
    simp only [isBlankCell, decide_eq_true_eq] at h
    by_cases hv : v = "" <;> simp [stringKey, hv, h]

lemma dateKey_of_content (asc : Bool) (c : Option String) (h : countedDate c = true) :
    ∃ q, dateKey asc c = (0, ExtQ.fin q) := by
  cases c with
  | none => simp [countedDate] at h
  | some v =>
    simp only [countedDate] at h
    by_cases hv : v = ""
    · simp [hv] at h
    · by_cases ht : pyStrip v = ""
      · simp [hv, ht] at h
      · simp only [hv, ht, if_false] at h
        refine ⟨(dateValue (pyStrip v) : ℚ), ?_⟩
        simp [dateKey, hv, ht, h]

lemma numericKey_of_content (asc : Bool) (c : Option String) (h : countedFloat c = true) :
    ∃ q, numericKey asc c = (0, ExtQ.fin q) := by
  cases c with
  | none => simp [countedFloat] at h
  | some v =>
    simp only [countedFloat] at h
    by_cases hv : v = ""
    · simp [hv] at h
    · by_cases ht : pyStrip v = ""
      · simp [hv, ht] at h
      · simp only [hv, ht, if_false, isNumericStr] at h
        obtain ⟨q, hq⟩ := Option.isSome_iff_exists.mp h
        exact ⟨q, by simp [numericKey, hv, ht, hq]⟩

lemma stringKey_of_content (asc : Bool) (c : Option String) (h : isBlankCell c = false) :
    ∃ l, stringKey asc c = (0, ⟨l⟩) ∧ l ≠ [] := by
  cases c with
  | none => simp [isBlankCell] at h
  | some v =>
    simp only [isBlankCell, decide_eq_false_iff_not] at h
    have hv : v ≠ "" := by
      intro hv
      exact h (by simp [hv, pyStrip, stripChars])
    refine ⟨(pyStrip v).data.map Char.toLower, by simp [stringKey, hv, h, pyLower], ?_⟩
    intro hmap
    apply h
    rw [List.map_eq_nil_iff] at hmap
    exact congrArg String.mk hmap

/-- C8 (amended): in the date and numeric modes, blanks and values the mode
cannot parse are together placed after every parseable value (their mutual
order is the input order); in string mode blank values are placed after all
non-blank values.  The two concrete examples of the claim hold as stated. -/
theorem sorter_blank_placement :
    (∀ data asc, (sortListByDate data asc).Pairwise
       (fun a b => isBlankCell a = true → countedDate b = false)) ∧
    (∀ data asc, (sortListByNumeric data asc).Pairwise
       (fun a b => isBlankCell a = true → countedFloat b = false)) ∧
    (∀ data asc, (sortListByString data asc).Pairwise
       (fun a b => isBlankCell a = true → isBlankCell b = true)) ∧
    sortList [some "3", some "10", some "", some "2"] true
      = [some "2", some "3", some "10", some ""] ∧
    sortList [some "02/01/2024", some "01/01/2023", some ""] true
      = [some "01/01/2023", some "02/01/2024", some ""] := by
  refine ⟨?_, ?_, ?_, by decide, by decide⟩
  · intro data asc
    have h := pySortByKey_pairwise (dateKey asc) numKeyLe numKeyLe_total numKeyLe_trans asc data
    refine h.imp ?_
    intro a b hle hblank
    by_contra hcd
    obtain ⟨q, hq⟩ := dateKey_of_content asc b (by simpa using hcd)
    rw [dateKey_of_blank asc a hblank, hq] at hle
    cases asc <;> simp [blankNumKey, numKeyLe, ExtQ.leB] at hle
  · intro data asc
    have h := pySortByKey_pairwise (numericKey asc) numKeyLe numKeyLe_total numKeyLe_trans asc data
    refine h.imp ?_
    intro a b hle hblank
    by_contra hcd
    obtain ⟨q, hq⟩ := numericKey_of_content asc b (by simpa using hcd)
    rw [numericKey_of_blank asc a hblank, hq] at hle
    cases asc <;> simp [blankNumKey, numKeyLe, ExtQ.leB] at hle
  · intro data asc
    have h := pySortByKey_pairwise (stringKey asc) strKeyLe strKeyLe_total strKeyLe_trans asc data
    refine h.imp ?_
    intro a b hle hblank
    by_contra hsb
    obtain ⟨l, hq, hl⟩ := stringKey_of_content asc b (by simpa using hsb)
    rw [stringKey_of_blank asc a hblank, hq] at hle
    cases asc
    · simp only [Bool.false_eq_true, if_false, blankStrKey] at hle
      cases l with
      | nil => exact hl rfl
      | cons c cs => simp [strKeyLe, listLeChar] at hle
    · simp [blankStrKey, strKeyLe] at hle

/-- C8 counterexample: in numeric mode a blank is not placed at the end of
the sorted output — a non-blank unparseable value keeps its place after the
blank, so the blank sits before a non-blank value. -/
theorem sortList_blank_not_at_end :
    detectSortType [some "1", some "2", some "3", some "4", some "5", some "6",
      some "7", some "8", some "", some "abc"] = "numeric" ∧
    sortList [some "1", some "2", some "3", some "4", some "5", some "6",
      some "7", some "8", some "", some "abc"] true
      = [some "1", some "2", some "3", some "4", some "5", some "6",
         some "7", some "8", some "", some "abc"] ∧
    ¬ (sortList [some "1", some "2", some "3", some "4", some "5", some "6",
        some "7", some "8", some "", some "abc"] true).Pairwise
        (fun a b => isBlankCell a = true → isBlankCell b = true) :=
  ⟨by decide, by decide, by decide⟩

/-! ## Claims C2 and C5 -/

/-- Any hit of the exact scan carries match type `"exact_match"` and score
100, and its employee number is the coerced PERNR of a scanned row. -/
lemma exactScan_shape (q : String) (ni pi : ℕ) :
    ∀ (rows : List Row) (res : FindResult), exactScan q ni pi rows = some res →
      res.matchType = "exact_match" ∧ res.matchScore = 100
  | [], res, h => by simp [exactScan] at h
  | r :: rs, res, h => by
    cases hc : cellAt r ni with
    | none =>
      simp only [exactScan, hc] at h
      exact exactScan_shape q ni pi rs res h
    | some s =>
      simp only [exactScan, hc] at h
      by_cases hq : pyLower (pyStrip s) = q
      · rw [if_pos hq] at h
        cases h
        exact ⟨rfl, rfl⟩
      · rw [if_neg hq] at h
        exact exactScan_shape q ni pi rs res h

/-- The exact scan returns the hit of the first row whose (trimmed,
lowered) name equals the query. -/
lemma exactScan_append (q : String) (ni pi : ℕ) (pre post : List Row) (r : Row) (s : String)
    (hpre : ∀ r' ∈ pre, ∀ s', cellAt r' ni = some s' → pyLower (pyStrip s') ≠ q)
    (hcell : cellAt r ni = some s) (heq : pyLower (pyStrip s) = q) :
    exactScan q ni pi (pre ++ r :: post)
      = some ⟨coercePernr r pi, some s, "exact_match", 100⟩ := by
  induction pre with
  | nil => simp [exactScan, hcell, heq]
  | cons p ps ih =>
    rw [List.cons_append]
    cases hc : cellAt p ni with
    | none =>
      have : exactScan q ni pi (p :: (ps ++ r :: post)) = exactScan q ni pi (ps ++ r :: post) := by
        simp [exactScan, hc]
      rw [this]
      exact ih (fun r' hr' s'' hc'' => hpre r' (List.mem_cons_of_mem _ hr') s'' hc'')
    | some s' =>
      have hne := hpre p (List.mem_cons_self _ _) s' hc
      have : exactScan q ni pi (p :: (ps ++ r :: post)) = exactScan q ni pi (ps ++ r :: post) := by
        simp [exactScan, hc, hne]
      rw [this]
      exact ih (fun r' hr' s'' hc'' => hpre r' (List.mem_cons_of_mem _ hr') s'' hc'')

/-- The exact scan misses when no row name equals the query. -/
lemma exactScan_none (q : String) (ni pi : ℕ) :
    ∀ (rows : List Row),
      (∀ r ∈ rows, ∀ s, cellAt r ni = some s → pyLower (pyStrip s) ≠ q) →
      exactScan q ni pi rows = none
  | [], _ => rfl
  | r :: rs, h => by
    cases hc : cellAt r ni with
    | none =>
      simp only [exactScan, hc]
      exact exactScan_none q ni pi rs (fun r' hr' => h r' (List.mem_cons_of_mem _ hr'))
    | some s =>
      have hne := h r (List.mem_cons_self _ _) s hc
      simp only [exactScan, hc, if_neg hne]
      exact exactScan_none q ni pi rs (fun r' hr' => h r' (List.mem_cons_of_mem _ hr'))

/-- C2: whenever some reference row's name equals the query name after
trimming and case folding, `find_employee_by_name` returns on the first
such row with the exact-match type and score 100, regardless of the fuzzy
configuration and of every similarity score; the result is never the fuzzy
kind. -/
theorem findEmployeeByName_exact_first
    (eng : Engine) (cn : String) (ml : Df) (ni pi : ℕ)
    (hn : resolveNameCol ml.cols = some ni) (hp : resolvePernrCol ml.cols = some pi)
    (pre post : List Row) (r : Row) (s : String)
    (hrows : ml.rows = pre ++ r :: post)
    (hpre : ∀ r' ∈ pre, ∀ s', cellAt r' ni = some s' →
      pyLower (pyStrip s') ≠ pyLower (pyStrip cn))
    (hcell : cellAt r ni = some s)
    (heq : pyLower (pyStrip s) = pyLower (pyStrip cn)) :
    findEmployeeByName eng cn ml
      = ⟨coercePernr r pi, some s, "exact_match", 100⟩ ∧
    (findEmployeeByName eng cn ml).matchType ≠ "fuzzy_match" := by
  have hne : ml.rows.isEmpty = false := by rw [hrows]; cases pre <;> rfl
  have hscan := exactScan_append (pyLower (pyStrip cn)) ni pi pre post r s hpre hcell heq
  have hcond : ¬ (ml.rows.isEmpty = true) := by rw [hne]; exact Bool.false_ne_true
  have h1 : findEmployeeByName eng cn ml
      = ⟨coercePernr r pi, some s, "exact_match", 100⟩ := by
    unfold findEmployeeByName
    rw [if_neg hcond, hn, hp, hrows]
    simp only []
    rw [hscan]
  exact ⟨h1, by
    rw [h1]
    exact (by decide : ("exact_match" : String) ≠ "fuzzy_match")⟩

/-- Witness for C2: the second row matches exactly (modulo trim and case)
and wins over a textually higher-scoring fuzzy candidate; fuzzy is enabled
and every similarity score is constantly 100. -/
theorem findEmployeeByName_exact_first_witness :
    findEmployeeByName ⟨fun _ _ => 100, fun _ _ => 100, true, 80⟩ "Alice Smith"
        ⟨["Full Name", "PERNR"],
         [[some "Bob Jones", some "1"], [some " ALICE SMITH ", some "7"],
          [some "alice smith", some "9"]]⟩
      = ⟨coercePernr [some " ALICE SMITH ", some "7"] 1, some " ALICE SMITH ",
          "exact_match", 100⟩ ∧
    (findEmployeeByName ⟨fun _ _ => 100, fun _ _ => 100, true, 80⟩ "Alice Smith"
        ⟨["Full Name", "PERNR"],
         [[some "Bob Jones", some "1"], [some " ALICE SMITH ", some "7"],
          [some "alice smith", some "9"]]⟩).matchType ≠ "fuzzy_match" := by
  refine findEmployeeByName_exact_first _ "Alice Smith" _ 0 1 (by decide) (by decide)
    [[some "Bob Jones", some "1"]] [[some "alice smith", some "9"]]
    [some " ALICE SMITH ", some "7"] " ALICE SMITH " rfl ?_ rfl (by decide)
  intro r' hr' s' hc
  simp only [List.mem_singleton] at hr'
  subst hr'
  have hbv : cellAt [some "Bob Jones", some "1"] 0 = some "Bob Jones" := rfl
  have hs' : s' = "Bob Jones" := Option.some.inj (hc.symm.trans hbv)
  subst hs'
  decide

/-- C5: with fuzzy matching disabled, `find_employee_by_name` never
produces a fuzzy result, and when additionally no exact case-insensitive
name equality exists it returns the no-match quadruple. -/
theorem findEmployeeByName_fuzzy_disabled
    (eng : Engine) (cn : String) (ml : Df) (hf : eng.useFuzzyLogic = false) :
    (findEmployeeByName eng cn ml).matchType ≠ "fuzzy_match" ∧
    ((∀ ni, resolveNameCol ml.cols = some ni →
        ∀ r ∈ ml.rows, ∀ s, cellAt r ni = some s →
          pyLower (pyStrip s) ≠ pyLower (pyStrip cn)) →
      findEmployeeByName eng cn ml = noMatchResult) := by
  constructor
  · unfold findEmployeeByName
    by_cases he : ml.rows.isEmpty
    · simp [he, noMatchResult]
    · simp only [he, Bool.false_eq_true, if_false]
      cases hn : resolveNameCol ml.cols with
      | none => simp [noMatchResult]
      | some ni =>
        cases hp : resolvePernrCol ml.cols with
        | none => simp [noMatchResult]
        | some pi =>
          cases hs : exactScan (pyLower (pyStrip cn)) ni pi ml.rows with
          | none => simp [hs, hf, noMatchResult]
          | some res =>
            simp only [hs]
            have := (exactScan_shape _ ni pi ml.rows res hs).1
            rw [this]
            decide
  · intro hno
    unfold findEmployeeByName
    by_cases he : ml.rows.isEmpty
    · simp [he]
    · simp only [he, Bool.false_eq_true, if_false]
      cases hn : resolveNameCol ml.cols with
      | none => rfl
      | some ni =>
        cases hp : resolvePernrCol ml.cols with
        | none => rfl
        | some pi =>
          have hscan : exactScan (pyLower (pyStrip cn)) ni pi ml.rows = none :=
            exactScan_none _ ni pi ml.rows (hno ni hn)
          simp only []
          rw [hscan, hf]
          simp

/-- Witness for C5: fuzzy disabled with constant similarity 100 and a low
threshold, yet a non-equal name yields the no-match result. -/
theorem findEmployeeByName_fuzzy_disabled_witness :
    (findEmployeeByName ⟨fun _ _ => 100, fun _ _ => 100, false, 50⟩ "Zed Quux"
        ⟨["Full Name", "PERNR"], [[some "Ann Bell", some "3"]]⟩).matchType
      ≠ "fuzzy_match" ∧
    findEmployeeByName ⟨fun _ _ => 100, fun _ _ => 100, false, 50⟩ "Zed Quux"
        ⟨["Full Name", "PERNR"], [[some "Ann Bell", some "3"]]⟩ = noMatchResult := by
  have h := findEmployeeByName_fuzzy_disabled ⟨fun _ _ => 100, fun _ _ => 100, false, 50⟩
    "Zed Quux" ⟨["Full Name", "PERNR"], [[some "Ann Bell", some "3"]]⟩ rfl
  refine ⟨h.1, h.2 ?_⟩
  intro ni hni r hr s hc
  have hni0 : ni = 0 := by
    have : (some 0 : Option ℕ) = some ni := by
      rw [← hni]; decide
    exact ((Option.some.injEq _ _).mp this).symm
  subst hni0
  simp only [List.mem_singleton] at hr
  subst hr
  have hbv : cellAt [some "Ann Bell", some "3"] 0 = some "Ann Bell" := rfl
  have hs' : s = "Ann Bell" := Option.some.inj (hc.symm.trans hbv)
  subst hs'
  decide

/-! ## Claim C4 -/

/-- The similarity score the fuzzy loop computes for a row (`none` when the
row's name cell is NaN and the loop skips it). -/
def rowScore? (eng : Engine) (q : String) (ni : ℕ) (r : Row) : Option ℚ :=
  (cellAt r ni).map (fun s => finalScore eng q (pyLower (pyStrip s)))

/-- Invariant of the fuzzy loop over the processed prefix: either no update
has happened and every processed score was rejected, or the accumulator
holds the first row attaining the running best score, every earlier score
being strictly below it and every later one at most it. -/
def FuzzyInv (eng : Engine) (q : String) (ni pi : ℕ) (proc : List Row) (a : FuzzyAcc) : Prop :=
  (a = ⟨0, none, none⟩ ∧
    ∀ r ∈ proc, ∀ sc, rowScore? eng q ni r = some sc → sc ≤ 0 ∨ sc < eng.threshold) ∨
  (∃ pre r post, proc = pre ++ r :: post ∧
    rowScore? eng q ni r = some a.bestScore ∧
    a.bestScore ≥ eng.threshold ∧ 0 < a.bestScore ∧
    a.bestEmp = coercePernr r pi ∧
    a.bestName = (cellAt r ni).map pyStrip ∧
    (∀ r' ∈ pre, ∀ sc, rowScore? eng q ni r' = some sc → sc < a.bestScore) ∧
    (∀ r' ∈ post, ∀ sc, rowScore? eng q ni r' = some sc → sc ≤ a.bestScore))

lemma fuzzyStep_inv (eng : Engine) (q : String) (ni pi : ℕ) (proc : List Row)
    (a : FuzzyAcc) (r : Row) (h : FuzzyInv eng q ni pi proc a) :
    FuzzyInv eng q ni pi (proc ++ [r]) (fuzzyStep eng q ni pi a r) := by
  cases hc : cellAt r ni with
  | none =>
    have hrs : rowScore? eng q ni r = none := by simp [rowScore?, hc]
    simp only [fuzzyStep, hc]
    rcases h with ⟨ha, hall⟩ | ⟨pre, rr, post, hsp, h1, h2, h3, h4, h5, h6, h7⟩
    · left
      refine ⟨ha, fun r' hr' sc hsc => ?_⟩
      rcases List.mem_append.mp hr' with hr' | hr'
      · exact hall r' hr' sc hsc
      · simp only [List.mem_singleton] at hr'
        subst hr'
        rw [hrs] at hsc
        cases hsc
    · right
      refine ⟨pre, rr, post ++ [r], by rw [hsp]; simp, h1, h2, h3, h4, h5, h6,
        fun r' hr' sc hsc => ?_⟩
      rcases List.mem_append.mp hr' with hr' | hr'
      · exact h7 r' hr' sc hsc
      · simp only [List.mem_singleton] at hr'
        subst hr'
        rw [hrs] at hsc
        cases hsc
  | some s =>
    have hrs : rowScore? eng q ni r = some (finalScore eng q (pyLower (pyStrip s))) := by
      simp [rowScore?, hc]
    simp only [fuzzyStep, hc]
    by_cases hcond : finalScore eng q (pyLower (pyStrip s)) > a.bestScore ∧
        finalScore eng q (pyLower (pyStrip s)) ≥ eng.threshold
    · rw [if_pos hcond]
      right
      rcases h with ⟨ha, hall⟩ | ⟨pre, rr, post, hsp, h1, h2, h3, h4, h5, h6, h7⟩
      · subst ha
        refine ⟨proc, r, [], by simp, hrs, hcond.2, hcond.1, rfl, by simp [hc],
          fun r' hr' sc hsc => ?_, by simp⟩
        rcases hall r' hr' sc hsc with hle | hlt
        · exact lt_of_le_of_lt hle hcond.1
        · exact lt_of_lt_of_le hlt hcond.2
      · refine ⟨proc, r, [], by simp, hrs, hcond.2,
          lt_trans h3 hcond.1, rfl, by simp [hc], fun r' hr' sc hsc => ?_, by simp⟩
        rw [hsp] at hr'
        rcases List.mem_append.mp hr' with hr' | hr'
        · exact lt_trans (h6 r' hr' sc hsc) hcond.1
        · rcases List.mem_cons.mp hr' with hr' | hr'
          · subst hr'
            have : sc = a.bestScore := by
              rw [h1] at hsc
              exact (Option.some.inj hsc).symm
            rw [this]
            exact hcond.1
          · exact lt_of_le_of_lt (h7 r' hr' sc hsc) hcond.1
    · rw [if_neg hcond]
      rcases h with ⟨ha, hall⟩ | ⟨pre, rr, post, hsp, h1, h2, h3, h4, h5, h6, h7⟩
      · left
        refine ⟨ha, fun r' hr' sc hsc => ?_⟩
        rcases List.mem_append.mp hr' with hr' | hr'
        · exact hall r' hr' sc hsc
        · simp only [List.mem_singleton] at hr'
          subst hr'
          have hsc' : sc = finalScore eng q (pyLower (pyStrip s)) := by
            rw [hrs] at hsc
            exact (Option.some.inj hsc).symm
          subst hsc'
          rw [ha] at hcond
          by_cases hgt : finalScore eng q (pyLower (pyStrip s)) > (0 : ℚ)
          · right
            by_contra hth
            exact hcond ⟨hgt, by linarith⟩
          · left
            linarith
      · right
        refine ⟨pre, rr, post ++ [r], by rw [hsp]; simp, h1, h2, h3, h4, h5, h6,
          fun r' hr' sc hsc => ?_⟩
        rcases List.mem_append.mp hr' with hr' | hr'
        · exact h7 r' hr' sc hsc
        · simp only [List.mem_singleton] at hr'
          subst hr'
          have hsc' : sc = finalScore eng q (pyLower (pyStrip s)) := by
            rw [hrs] at hsc
            exact (Option.some.inj hsc).symm
          subst hsc'
          by_cases hgt : finalScore eng q (pyLower (pyStrip s)) > a.bestScore
          · by_cases hth : finalScore eng q (pyLower (pyStrip s)) ≥ eng.threshold
            · exact absurd ⟨hgt, hth⟩ hcond
            · linarith
          · linarith

lemma fuzzyFold_inv (eng : Engine) (q : String) (ni pi : ℕ) :
    ∀ (rest proc : List Row) (a : FuzzyAcc), FuzzyInv eng q ni pi proc a →
      FuzzyInv eng q ni pi (proc ++ rest) (rest.foldl (fuzzyStep eng q ni pi) a)
  | [], proc, a, h => by simpa using h
  | r :: rs, proc, a, h => by
    have h1 := fuzzyStep_inv eng q ni pi proc a r h
    have h2 := fuzzyFold_inv eng q ni pi rs (proc ++ [r]) _ h1
    simpa using h2

/-- C4: whenever the fuzzy phase returns a match, the matched row is the
first row (in row order) attaining the maximal similarity score, that score
meets the threshold, every earlier row scores strictly below it (so a later
equal score never replaces the winner) and no row scores above it. -/
theorem fuzzyPhase_first_best
    (eng : Engine) (q : String) (ni pi : ℕ) (rows : List Row) (res : FindResult)
    (hres : fuzzyPhase eng q ni pi rows = res)
    (hmt : res.matchType = "fuzzy_match") :
    ∃ pre r post, rows = pre ++ r :: post ∧
      rowScore? eng q ni r = some res.matchScore ∧
      res.matchScore ≥ eng.threshold ∧
      res.employeeNumber = coercePernr r pi ∧
      res.fullName = (cellAt r ni).map pyStrip ∧
      (∀ r' ∈ pre, ∀ sc, rowScore? eng q ni r' = some sc → sc < res.matchScore) ∧
      (∀ r' ∈ rows, ∀ sc, rowScore? eng q ni r' = some sc → sc ≤ res.matchScore) := by
  have hinv := fuzzyFold_inv eng q ni pi rows [] ⟨0, none, none⟩ (Or.inl ⟨rfl, by simp⟩)
  simp only [List.nil_append] at hinv
  unfold fuzzyPhase at hres
  simp only [] at hres
  cases he : (rows.foldl (fuzzyStep eng q ni pi) ⟨0, none, none⟩).bestEmp with
  | none =>
    rw [he] at hres
    simp only [] at hres
    rw [← hres] at hmt
    simp [noMatchResult] at hmt
  | some e =>
    rw [he] at hres
    simp only [] at hres
    rcases hinv with ⟨hai, _⟩ | ⟨pre, r, post, hsp, h1, h2, h3, h4, h5, h6, h7⟩
    · rw [hai] at he
      cases he
    · subst hres
      refine ⟨pre, r, post, hsp, h1, h2, he.symm.trans h4, h5, h6, ?_⟩
      intro r' hr' sc hsc
      rw [hsp] at hr'
      rcases List.mem_append.mp hr' with hr' | hr'
      · exact le_of_lt (h6 r' hr' sc hsc)
      · rcases List.mem_cons.mp hr' with hr' | hr'
        · subst hr'
          rw [h1] at hsc
          exact le_of_eq (Option.some.inj hsc).symm
        · exact h7 r' hr' sc hsc

/-- Witness for C4: two rows tie at score 95; the first of them (employee
"7") wins and the result score is 95. -/
theorem fuzzyPhase_first_best_witness :
    ∃ pre r post,
      ([[some "zz", some "1"], [some "bob", some "7"], [some "bob", some "9"]] : List Row)
        = pre ++ r :: post ∧
      rowScore? ⟨fun a b => if a = b then 95 else 20, fun _ _ => 0, true, 80⟩ "bob" 0 r
        = some (FindResult.mk (some "7") (some "bob") "fuzzy_match" 95).matchScore ∧
      (FindResult.mk (some "7") (some "bob") "fuzzy_match" 95).matchScore
        ≥ (Engine.mk (fun a b => if a = b then 95 else 20) (fun _ _ => 0) true 80).threshold ∧
      (FindResult.mk (some "7") (some "bob") "fuzzy_match" 95).employeeNumber
        = coercePernr r 1 ∧
      (FindResult.mk (some "7") (some "bob") "fuzzy_match" 95).fullName
        = (cellAt r 0).map pyStrip ∧
      (∀ r' ∈ pre, ∀ sc,
        rowScore? ⟨fun a b => if a = b then 95 else 20, fun _ _ => 0, true, 80⟩ "bob" 0 r'
          = some sc → sc < (FindResult.mk (some "7") (some "bob") "fuzzy_match" 95).matchScore) ∧
      (∀ r' ∈ ([[some "zz", some "1"], [some "bob", some "7"], [some "bob", some "9"]] : List Row),
        ∀ sc,
        rowScore? ⟨fun a b => if a = b then 95 else 20, fun _ _ => 0, true, 80⟩ "bob" 0 r'
          = some sc → sc ≤ (FindResult.mk (some "7") (some "bob") "fuzzy_match" 95).matchScore) :=
  fuzzyPhase_first_best ⟨fun a b => if a = b then 95 else 20, fun _ _ => 0, true, 80⟩
    "bob" 0 1 [[some "zz", some "1"], [some "bob", some "7"], [some "bob", some "9"]]
    ⟨some "7", some "bob", "fuzzy_match", 95⟩ (by decide) rfl

/-! ## Claim C6 -/

/-- The enrichment loop aborts whenever the cancel flag is true at any of
its remaining row boundaries. -/
lemma enrichLoop_cancel (eng : Engine) (prev mlCur mlRes : Option Df)
    (curCols : List String) (cancelAt : ℕ → Bool) :
    ∀ (rows : List Row) (i0 : ℕ),
      (∃ j, j < rows.length ∧ cancelAt (i0 + j) = true) →
      enrichLoop eng prev mlCur mlRes curCols cancelAt i0 rows = none
  | [], _, ⟨_, hj, _⟩ => absurd hj (by simp)
  | r :: rs, i0, ⟨j, hj, hcj⟩ => by
    simp only [enrichLoop]
    by_cases hc : cancelAt i0
    · rw [if_pos hc]
    · rw [if_neg hc]
      have hj0 : j ≠ 0 := by
        rintro rfl
        rw [Nat.add_zero] at hcj
        exact hc hcj
      have hrec : enrichLoop eng prev mlCur mlRes curCols cancelAt (i0 + 1) rs = none :=
        enrichLoop_cancel eng prev mlCur mlRes curCols cancelAt rs (i0 + 1)
          ⟨j - 1, by simp at hj; omega, by rw [show i0 + 1 + (j - 1) = i0 + j by omega]; exact hcj⟩
      rw [hrec]

/-- C6: when the cancellation flag is observed at a row boundary the run
stops before finalization: the outcome is the cancellation status (not the
completion status) and the dataset — including any previously stored
cleaned/unmatched/fuzzy tables — is left exactly as it was, so nothing is
published. -/
theorem cancelled_run_preserves_state
    (eng : Engine) (cancelAt : ℕ → Bool) (ds : Dataset)
    (h : ∃ i, i < ds.currentSystem.rows.length ∧ cancelAt i = true) :
    cleanupWorker eng cancelAt ds = (RunOutcome.cancelled, ds) := by
  obtain ⟨i, hi, hci⟩ := h
  have hnone := enrichLoop_cancel eng ds.previousReference ds.masterlistCurrent
    ds.masterlistResigned ds.currentSystem.cols cancelAt ds.currentSystem.rows 0
    ⟨i, hi, by simpa using hci⟩
  unfold cleanupWorker
  simp only []
  rw [hnone]

/-- Witness for C6: the flag set at the boundary before the second of three
rows cancels the run and leaves the previously stored tables untouched. -/
theorem cancelled_run_preserves_state_witness :
    cleanupWorker ⟨fun _ _ => 0, fun _ _ => 0, true, 80⟩ (fun i => i == 1)
      ⟨⟨["Name"], [[some "A"], [some "B"], [some "C"]]⟩, none, none, none,
        some [([some "Old"], ⟨some "1", "user_id_match", 100⟩)], some [], some []⟩
      = (RunOutcome.cancelled,
        ⟨⟨["Name"], [[some "A"], [some "B"], [some "C"]]⟩, none, none, none,
          some [([some "Old"], ⟨some "1", "user_id_match", 100⟩)], some [], some []⟩) :=
  cancelled_run_preserves_state _ _ _ ⟨1, by decide, by decide⟩

/-! ## Claims C1 and C3 -/

/-- The result facts of `find_employee_by_name` used by the record
invariants: a no-match carries no employee number, an exact match scores
100, and the user-ID kind is never produced here. -/
def ResultShape (fr : FindResult) : Prop :=
  (fr.matchType = "no_match" → fr.employeeNumber = none) ∧
  (fr.matchType = "exact_match" → fr.matchScore = 100) ∧
  fr.matchType ≠ "user_id_match"

lemma resultShape_noMatch : ResultShape noMatchResult :=
  ⟨fun _ => rfl, fun h => absurd h (by decide), by decide⟩

lemma fuzzyPhase_shape (eng : Engine) (q : String) (ni pi : ℕ) (rows : List Row) :
    fuzzyPhase eng q ni pi rows = noMatchResult ∨
    ((fuzzyPhase eng q ni pi rows).matchType = "fuzzy_match" ∧
      (fuzzyPhase eng q ni pi rows).employeeNumber ≠ none) := by
  unfold fuzzyPhase
  simp only []
  cases (rows.foldl (fuzzyStep eng q ni pi) ⟨0, none, none⟩).bestEmp with
  | none => exact Or.inl rfl
  | some e => exact Or.inr ⟨rfl, by simp⟩

lemma resultShape_find (eng : Engine) (cn : String) (ml : Df) :
    ResultShape (findEmployeeByName eng cn ml) := by
  unfold findEmployeeByName
  by_cases he : ml.rows.isEmpty
  · rw [if_pos he]
    exact resultShape_noMatch
  · rw [if_neg he]
    cases hn : resolveNameCol ml.cols with
    | none => exact resultShape_noMatch
    | some ni =>
      cases hp : resolvePernrCol ml.cols with
      | none => exact resultShape_noMatch
      | some pi =>
        simp only []
        cases hs : exactScan (pyLower (pyStrip cn)) ni pi ml.rows with
        | some res =>
          have hsh := exactScan_shape _ ni pi ml.rows res hs
          refine ⟨fun h => ?_, fun _ => hsh.2, ?_⟩
          · rw [hsh.1] at h
            exact absurd h (by decide)
          · rw [hsh.1]
            decide
        | none =>
          by_cases hf : eng.useFuzzyLogic
          · rw [if_pos hf]
            rcases fuzzyPhase_shape eng (pyLower (pyStrip cn)) ni pi ml.rows with hnm | ⟨hmt, _⟩
            · rw [hnm]
              exact resultShape_noMatch
            · refine ⟨fun h => ?_, fun h => ?_, ?_⟩
              · rw [hmt] at h
                exact absurd h (by decide)
              · rw [hmt] at h
                exact absurd h (by decide)
              · rw [hmt]
                decide
          · rw [if_neg hf]
            exact resultShape_noMatch

/-- The per-row record facts of C1. -/
def RowShape (res : RowResult) : Prop :=
  (res.matchType = "no_match" → res.employeeNumber = none) ∧
  ((res.matchType = "user_id_match" ∨ res.matchType = "exact_match") →
    res.matchScore = 100)

lemma rowShape_noMatchRow : RowShape ⟨none, "no_match", 0⟩ :=
  ⟨fun _ => rfl, fun h => by rcases h with h | h <;> exact absurd h (by decide)⟩

lemma rowShape_of_find (fr : FindResult) (h : ResultShape fr) :
    RowShape (ofFindResult fr) := by
  refine ⟨h.1, fun hmt => ?_⟩
  rcases hmt with hmt | hmt
  · exact absurd hmt h.2.2
  · exact h.2.1 hmt

lemma step2_shape (eng : Engine) (mlCur mlRes : Option Df) (curCols : List String)
    (row : Row) : RowShape (step2Result eng mlCur mlRes curCols row) := by
  cases hcol : curCols.findIdx? (fun c =>
      strContains (pyLower c) "username" || strContains (pyLower c) "name") with
  | none =>
    simp only [step2Result, hcol]
    exact rowShape_noMatchRow
  | some nc =>
    cases hcel : cellAt row nc with
    | none =>
      simp only [step2Result, hcol, hcel]
      exact rowShape_noMatchRow
    | some cn =>
      simp only [step2Result, hcol, hcel]
      by_cases hcn : cn = ""
      · rw [if_pos hcn]
        exact rowShape_noMatchRow
      · rw [if_neg hcn]
        cases mlCur with
        | some m =>
          simp only []
          by_cases hemp : (findEmployeeByName eng cn m).employeeNumber = none
          · rw [if_pos hemp]
            cases mlRes with
            | some mres => exact rowShape_of_find _ (resultShape_find eng cn mres)
            | none => exact rowShape_of_find _ (resultShape_find eng cn m)
          · rw [if_neg hemp]
            exact rowShape_of_find _ (resultShape_find eng cn m)
        | none =>
          cases mlRes with
          | some mres => exact rowShape_of_find _ (resultShape_find eng cn mres)
          | none => exact rowShape_noMatchRow

lemma step2_not_uid (eng : Engine) (mlCur mlRes : Option Df) (curCols : List String)
    (row : Row) : (step2Result eng mlCur mlRes curCols row).matchType ≠ "user_id_match" := by
  cases hcol : curCols.findIdx? (fun c =>
      strContains (pyLower c) "username" || strContains (pyLower c) "name") with
  | none =>
    simp only [step2Result, hcol]
    decide
  | some nc =>
    cases hcel : cellAt row nc with
    | none =>
      simp only [step2Result, hcol, hcel]
      decide
    | some cn =>
      simp only [step2Result, hcol, hcel]
      by_cases hcn : cn = ""
      · rw [if_pos hcn]
        decide
      · rw [if_neg hcn]
        cases mlCur with
        | some m =>
          simp only []
          by_cases hemp : (findEmployeeByName eng cn m).employeeNumber = none
          · rw [if_pos hemp]
            cases mlRes with
            | some mres => exact (resultShape_find eng cn mres).2.2
            | none => exact (resultShape_find eng cn m).2.2
          · rw [if_neg hemp]
            exact (resultShape_find eng cn m).2.2
        | none =>
          cases mlRes with
          | some mres => exact (resultShape_find eng cn mres).2.2
          | none => exact (show ("no_match" : String) ≠ "user_id_match" by decide)

lemma processRow_shape (eng : Engine) (prev mlCur mlRes : Option Df)
    (curCols : List String) (row : Row) :
    RowShape (processRow eng prev mlCur mlRes curCols row) := by
  unfold processRow
  cases step1PernrCell prev curCols row with
  | none => exact step2_shape eng mlCur mlRes curCols row
  | some pv =>
    simp only []
    by_cases ht : pyStrip pv = ""
    · rw [if_pos ht]
      exact step2_shape eng mlCur mlRes curCols row
    · rw [if_neg ht]
      exact ⟨fun h => absurd h (show ("user_id_match" : String) ≠ "no_match" by decide),
        fun _ => rfl⟩

/-- A user-ID match can only come from Step 1, and then the stored employee
number is the trimmed reference cell verbatim. -/
lemma processRow_uid (eng : Engine) (prev mlCur mlRes : Option Df)
    (curCols : List String) (row : Row)
    (h : (processRow eng prev mlCur mlRes curCols row).matchType = "user_id_match") :
    ∃ c, step1PernrCell prev curCols row = some c ∧
      (processRow eng prev mlCur mlRes curCols row).employeeNumber = some (pyStrip c) := by
  unfold processRow at h ⊢
  cases hs1 : step1PernrCell prev curCols row with
  | none =>
    rw [hs1] at h
    exact absurd h (step2_not_uid eng mlCur mlRes curCols row)
  | some pv =>
    rw [hs1] at h
    simp only [] at h ⊢
    by_cases ht : pyStrip pv = ""
    · rw [if_pos ht] at h
      exact absurd h (step2_not_uid eng mlCur mlRes curCols row)
    · rw [if_neg ht] at h ⊢
      exact ⟨pv, rfl, rfl⟩

/-- Each surviving enriched row of the loop was produced by `processRow`. -/
lemma enrichLoop_mem (eng : Engine) (prev mlCur mlRes : Option Df)
    (curCols : List String) (cancelAt : ℕ → Bool) :
    ∀ (rows : List Row) (i0 : ℕ) (ers : List EnrichedRow),
      enrichLoop eng prev mlCur mlRes curCols cancelAt i0 rows = some ers →
      ∀ er ∈ ers, er.2 = processRow eng prev mlCur mlRes curCols er.1
  | [], _, ers, h => by
    simp only [enrichLoop] at h
    cases h
    intro er her
    cases her
  | r :: rs, i0, ers, h => by
    simp only [enrichLoop] at h
    by_cases hc : cancelAt i0
    · rw [if_pos hc] at h
      cases h
    · rw [if_neg hc] at h
      cases hrec : enrichLoop eng prev mlCur mlRes curCols cancelAt (i0 + 1) rs with
      | none =>
        rw [hrec] at h
        cases h
      | some rest =>
        rw [hrec] at h
        cases h
        intro er her
        rcases List.mem_cons.mp her with her | her
        · subst her
          rfl
        · exact enrichLoop_mem eng prev mlCur mlRes curCols cancelAt rs (i0 + 1) rest hrec er her

/-- A completed run's cleaned table is the finalization of `processRow`
applied to each current row. -/
lemma completed_run_cleaned
    (eng : Engine) (cancelAt : ℕ → Bool) (ds ds2 : Dataset)
    (l : List EnrichedRow)
    (hrun : cleanupWorker eng cancelAt ds = (RunOutcome.completed, ds2))
    (hdata : ds2.cleanedData = some l) :
    ∀ er ∈ l, ∃ res0,
      res0 = processRow eng ds.previousReference ds.masterlistCurrent
        ds.masterlistResigned ds.currentSystem.cols er.1 ∧
      er.2 = ⟨cleanPernr res0.employeeNumber, res0.matchType, res0.matchScore⟩ := by
  unfold cleanupWorker at hrun
  simp only [] at hrun
  cases hloop : enrichLoop eng ds.previousReference ds.masterlistCurrent
      ds.masterlistResigned ds.currentSystem.cols cancelAt 0 ds.currentSystem.rows with
  | none =>
    rw [hloop] at hrun
    simp at hrun
  | some ers =>
    rw [hloop] at hrun
    simp only [finalizeProcessing] at hrun
    have hds2 : ds2 = { ds with
        cleanedData := some (ers.map (fun er =>
          (er.1, RowResult.mk (cleanPernr er.2.employeeNumber) er.2.matchType er.2.matchScore)))
        unmatchedData := some ((ers.map (fun er =>
          (er.1, RowResult.mk (cleanPernr er.2.employeeNumber) er.2.matchType
            er.2.matchScore))).filter (fun er => er.2.employeeNumber.isNone))
        fuzzyMatchedData := some ((ers.map (fun er =>
          (er.1, RowResult.mk (cleanPernr er.2.employeeNumber) er.2.matchType
            er.2.matchScore))).filter (fun er =>
              er.2.employeeNumber.isSome && er.2.matchType == "fuzzy_match")) } :=
      (congrArg Prod.snd hrun).symm
    rw [hds2] at hdata
    simp only [Option.some.injEq] at hdata
    intro er her
    rw [← hdata] at her
    obtain ⟨er0, her0, heq⟩ := List.mem_map.mp her
    subst heq
    have hpr := enrichLoop_mem eng ds.previousReference ds.masterlistCurrent
      ds.masterlistResigned ds.currentSystem.cols cancelAt ds.currentSystem.rows 0 ers hloop
      er0 her0
    exact ⟨er0.2, hpr, rfl⟩

/-- C1 (amended): in every completed run, a record with `match_type =
no_match` carries no identifier (equivalently, a record with an identifier
has a positive match type), and `match_score = 100.0` whenever the match
type is the user-ID or exact-name kind.  The converse direction of the
claim's equivalence is dropped: an exact name match whose reference
identifier is non-numeric produces `match_type = exact_match` with an
absent identifier. -/
theorem run_match_invariant
    (eng : Engine) (cancelAt : ℕ → Bool) (ds ds2 : Dataset)
    (l : List EnrichedRow) (row : Row) (res : RowResult)
    (hrun : cleanupWorker eng cancelAt ds = (RunOutcome.completed, ds2))
    (hdata : ds2.cleanedData = some l)
    (hmem : (row, res) ∈ l) :
    (res.matchType = "no_match" → res.employeeNumber = none) ∧
    ((res.matchType = "user_id_match" ∨ res.matchType = "exact_match") →
      res.matchScore = 100) := by
  obtain ⟨res0, hres0, heq⟩ :=
    completed_run_cleaned eng cancelAt ds ds2 l hrun hdata (row, res) hmem
  have hshape : RowShape res0 := by
    rw [hres0]
    exact processRow_shape eng ds.previousReference ds.masterlistCurrent
      ds.masterlistResigned ds.currentSystem.cols row
  have hres : res = ⟨cleanPernr res0.employeeNumber, res0.matchType, res0.matchScore⟩ := heq
  rw [hres]
  refine ⟨fun hmt => ?_, hshape.2⟩
  rw [hshape.1 hmt]
  rfl

/-- Witness for C1 (amended) on a completed one-row run resolved by exact
name matching. -/
theorem run_match_invariant_witness :
    ((⟨some "42", "exact_match", 100⟩ : RowResult).matchType = "no_match" →
      (⟨some "42", "exact_match", 100⟩ : RowResult).employeeNumber = none) ∧
    (((⟨some "42", "exact_match", 100⟩ : RowResult).matchType = "user_id_match" ∨
      (⟨some "42", "exact_match", 100⟩ : RowResult).matchType = "exact_match") →
      (⟨some "42", "exact_match", 100⟩ : RowResult).matchScore = 100) :=
  run_match_invariant ⟨fun _ _ => 0, fun _ _ => 0, false, 80⟩ (fun _ => false)
    ⟨⟨["Name"], [[some "Bob Jones"]]⟩, none,
      some ⟨["Full Name", "PERNR"], [[some "bob jones", some "0042"]]⟩,
      none, none, none, none⟩
    ⟨⟨["Name"], [[some "Bob Jones"]]⟩, none,
      some ⟨["Full Name", "PERNR"], [[some "bob jones", some "0042"]]⟩,
      none,
      some [([some "Bob Jones"], ⟨some "42", "exact_match", 100⟩)],
      some [],
      some []⟩
    [([some "Bob Jones"], ⟨some "42", "exact_match", 100⟩)]
    [some "Bob Jones"] ⟨some "42", "exact_match", 100⟩
    (by decide) rfl (by decide)

/-- C1 counterexample: an exact name match on a reference row whose PERNR
fails numeric coercion yields a run record with `match_type = exact_match`
(score 100) and no identifier, refuting `no_match ⇔ identifier absent`. -/
theorem run_match_invariant_counterexample :
    (cleanupWorker ⟨fun _ _ => 0, fun _ _ => 0, false, 80⟩ (fun _ => false)
      ⟨⟨["Name"], [[some "Alice Smith"]]⟩, none,
        some ⟨["Full Name", "PERNR"], [[some "alice smith", some "XYZ"]]⟩,
        none, none, none, none⟩).2.cleanedData
      = some [([some "Alice Smith"], ⟨none, "exact_match", 100⟩)] ∧
    ("exact_match" : String) ≠ "no_match" :=
  ⟨by decide, by decide⟩

/-- C3 (amended): in every completed run the final identifier of a record
is `clean_pernr` of the identifier produced during row processing, where
`clean_pernr` converts purely numeric values to their integer string and
keeps non-numeric values verbatim (trimmed); an identifier found by the
User-ID step is carried through row processing as the trimmed reference
cell verbatim.  (Identifiers found by the name-matching steps are instead
coerced at match time — see the counterexample.) -/
theorem run_identifier_flow
    (eng : Engine) (cancelAt : ℕ → Bool) (ds ds2 : Dataset)
    (l : List EnrichedRow) (row : Row) (res : RowResult)
    (hrun : cleanupWorker eng cancelAt ds = (RunOutcome.completed, ds2))
    (hdata : ds2.cleanedData = some l)
    (hmem : (row, res) ∈ l) :
    (∀ s q, pyFloat? (pyStrip s) = some q →
      cleanPernr (some s) = some (toString (pyInt q))) ∧
    (∀ s, pyFloat? (pyStrip s) = none → pyStrip s ≠ "" →
      cleanPernr (some s) = some (pyStrip s)) ∧
    ∃ res0, res0 = processRow eng ds.previousReference ds.masterlistCurrent
        ds.masterlistResigned ds.currentSystem.cols row ∧
      res = ⟨cleanPernr res0.employeeNumber, res0.matchType, res0.matchScore⟩ ∧
      (res0.matchType = "user_id_match" →
        ∃ c, step1PernrCell ds.previousReference ds.currentSystem.cols row = some c ∧
          res0.employeeNumber = some (pyStrip c)) := by
  refine ⟨?_, ?_, ?_⟩
  · intro s q h
    simp only [cleanPernr]
    by_cases ht : pyStrip s = ""
    · rw [ht] at h
      have hempty : pyFloat? "" = none := rfl
      rw [hempty] at h
      cases h
    · rw [if_neg ht, h]
  · intro s h ht
    simp only [cleanPernr]
    rw [if_neg ht, h]
  · obtain ⟨res0, hres0, heq⟩ :=
      completed_run_cleaned eng cancelAt ds ds2 l hrun hdata (row, res) hmem
    refine ⟨res0, hres0, heq, fun hmt => ?_⟩
    obtain ⟨c, hc1, hc2⟩ := processRow_uid eng ds.previousReference ds.masterlistCurrent
      ds.masterlistResigned ds.currentSystem.cols row (hres0 ▸ hmt)
    exact ⟨c, hc1, hres0.symm ▸ hc2⟩

/-- Witness for C3 (amended): a User-ID lookup finds the padded cell
" 0042 ", row processing keeps "0042" verbatim, and finalization
canonicalizes it to "42". -/
theorem run_identifier_flow_witness :
    (∀ s q, pyFloat? (pyStrip s) = some q →
      cleanPernr (some s) = some (toString (pyInt q))) ∧
    (∀ s, pyFloat? (pyStrip s) = none → pyStrip s ≠ "" →
      cleanPernr (some s) = some (pyStrip s)) ∧
    ∃ res0, res0 = processRow ⟨fun _ _ => 0, fun _ _ => 0, true, 80⟩
        (some ⟨["User ID", "PERNR"], [[some "U1", some " 0042 "]]⟩) none none
        ["User ID"] [some "U1"] ∧
      (⟨some "42", "user_id_match", 100⟩ : RowResult)
        = ⟨cleanPernr res0.employeeNumber, res0.matchType, res0.matchScore⟩ ∧
      (res0.matchType = "user_id_match" →
        ∃ c, step1PernrCell (some ⟨["User ID", "PERNR"], [[some "U1", some " 0042 "]]⟩)
            ["User ID"] [some "U1"] = some c ∧
          res0.employeeNumber = some (pyStrip c)) :=
  run_identifier_flow ⟨fun _ _ => 0, fun _ _ => 0, true, 80⟩ (fun _ => false)
    ⟨⟨["User ID"], [[some "U1"]]⟩,
      some ⟨["User ID", "PERNR"], [[some "U1", some " 0042 "]]⟩,
      none, none, none, none, none⟩
    ⟨⟨["User ID"], [[some "U1"]]⟩,
      some ⟨["User ID", "PERNR"], [[some "U1", some " 0042 "]]⟩,
      none, none,
      some [([some "U1"], ⟨some "42", "user_id_match", 100⟩)],
      some [], some []⟩
    [([some "U1"], ⟨some "42", "user_id_match", 100⟩)]
    [some "U1"] ⟨some "42", "user_id_match", 100⟩
    (by decide) rfl (by decide)

/-- C3 counterexample: the name-match path does not preserve identifiers
verbatim until finalization.  A non-numeric reference identifier
("SAMU-X") found by the exact-name step is discarded entirely (the final
record has no identifier, although `clean_pernr` alone would have kept it
verbatim), and a numeric identifier "00123" is already canonicalized to
"123" during row processing, before the finalization step. -/
theorem run_identifier_flow_counterexample :
    (cleanupWorker ⟨fun _ _ => 0, fun _ _ => 0, false, 80⟩ (fun _ => false)
      ⟨⟨["Name"], [[some "Alice Smith"]]⟩, none,
        some ⟨["Full Name", "PERNR"], [[some "alice smith", some "SAMU-X"]]⟩,
        none, none, none, none⟩).2.cleanedData
      = some [([some "Alice Smith"], ⟨none, "exact_match", 100⟩)] ∧
    cellAt [some "alice smith", some "SAMU-X"] 1 = some "SAMU-X" ∧
    cleanPernr (some "SAMU-X") = some "SAMU-X" ∧
    (processRow ⟨fun _ _ => 0, fun _ _ => 0, false, 80⟩ none
        (some ⟨["Full Name", "PERNR"], [[some "alice smith", some "00123"]]⟩)
        none ["Name"] [some "Alice Smith"]).employeeNumber = some "123" :=
  ⟨by decide, by decide, by decide, by decide⟩

end CleanupTool
